import Mathlib

/-!
# Verification of the license tooling in `tasks/go.py`

This file gives a shallow embedding of the license-manifest tasks of the
repository (`lint_licenses`, `generate_licenses`, `get_licenses_list`,
`lint_licenses_old` in `tasks/go.py`) and proves, or refutes, the stated
properties of the natural-language specification.

The embedding models Python's string primitives over `List Char` (Python
`str` indexing and slicing are character based), keeps the source's data
flow, and represents the effect of the external discovery process by its
captured `stderr` text, which is the only part of it the code inspects.
-/

namespace TasksGo

/-! ## Python string primitives -/

/-- The whitespace characters `str.rstrip()` removes: the full Unicode
whitespace set of Python's `str.isspace()` — U+0009–U+000D, U+001C–U+001F,
the space, next line (U+0085), no-break space (U+00A0), Ogham space mark
(U+1680), the U+2000–U+200A spaces, line separator (U+2028), paragraph
separator (U+2029), narrow no-break space (U+202F), medium mathematical
space (U+205F) and ideographic space (U+3000). -/
def isPySpace (c : Char) : Bool :=
  let n := c.toNat
  n == 0x20 || n == 0x9 || n == 0xa || n == 0xb || n == 0xc || n == 0xd ||
  n == 0x1c || n == 0x1d || n == 0x1e || n == 0x1f ||
  n == 0x85 || n == 0xa0 || n == 0x1680 ||
  n == 0x2000 || n == 0x2001 || n == 0x2002 || n == 0x2003 || n == 0x2004 ||
  n == 0x2005 || n == 0x2006 || n == 0x2007 || n == 0x2008 || n == 0x2009 ||
  n == 0x200a ||
  n == 0x2028 || n == 0x2029 || n == 0x202f || n == 0x205f || n == 0x3000

/-- Python `str.rstrip()` on a character list: remove every trailing
whitespace character. -/
def pyRstripList (l : List Char) : List Char :=
  (l.reverse.dropWhile isPySpace).reverse

/-- Python `line.rstrip()` as used in `lint_licenses`. -/
def pyRstrip (s : String) : String :=
  ⟨pyRstripList s.data⟩

/-- Python `str.split(sep)` with a one-character separator: split at every
occurrence, keeping empty pieces (`"".split(" ") == [""]`).  `acc` holds the
piece currently being read, reversed. -/
def pySplitCharAux (sep : Char) : List Char → List Char → List (List Char)
  | [], acc => [acc.reverse]
  | c :: rest, acc =>
    if c = sep then acc.reverse :: pySplitCharAux sep rest []
    else pySplitCharAux sep rest (c :: acc)

/-- Python `s.split(sep)` for a one-character separator `sep`. -/
def pySplitChar (sep : Char) (s : String) : List String :=
  (pySplitCharAux sep s.data []).map String.mk

/-- Python `s.startswith(pre)`. -/
def pyStartsWith (s pre : String) : Bool :=
  pre.data.isPrefixOf s.data

/-- Python `s[n:]`: drop the first `n` characters. -/
def pyDrop (s : String) (n : Nat) : String :=
  ⟨s.data.drop n⟩

/-- Python file iteration (`for line in f`): the lines of the file's text,
each keeping its trailing newline; a last line without a newline is kept,
and a file ending in a newline produces no extra empty line.  Text-mode
newline translation is not modelled; the inputs considered here are free of
carriage returns. -/
def pyFileLinesAux : List Char → List Char → List (List Char)
  | [], acc => if acc = [] then [] else [acc.reverse]
  | c :: rest, acc =>
    if c = '\n' then (acc.reverse ++ ['\n']) :: pyFileLinesAux rest []
    else pyFileLinesAux rest (c :: acc)

/-- The lines of a file's text, Python style. -/
def pyFileLines (s : String) : List String :=
  (pyFileLinesAux s.data []).map String.mk

/-- The suffix of `l` that follows the first occurrence of `sep`:
models Python `l.find(sep)` followed by the slice `l[index + len(sep):]`,
with `none` for `find` returning `-1`.  (`sep` is nonempty at every use
site.) -/
def afterFirst (sep : List Char) : List Char → Option (List Char)
  | [] => none
  | c :: rest =>
    if sep.isPrefixOf (c :: rest) then some ((c :: rest).drop sep.length)
    else afterFirst sep rest

/-- Lexicographic (code-point) comparison of character lists: the order
Python's `list.sort()` uses on `str` values. -/
def strLeList : List Char → List Char → Bool
  | [], _ => true
  | _ :: _, [] => false
  | a :: as, b :: bs =>
    if a < b then true
    else if b < a then false
    else strLeList as bs

/-- Python string `<=` (lexicographic by code point). -/
def strLe (s t : String) : Bool :=
  strLeList s.data t.data

/-! ## `get_licenses_list` (discovery-output parsing) -/

/-- The marker substring `get_licenses_list` scans each stderr line for. -/
def FOUND_MARKER : String := "msg=\"Found License\""

/-- The hardcoded bootstrap row for the discovery tool itself. -/
def bootstrapEntry : String := "core,\"github.com/frapposelli/wwhrd\",MIT"

/-- `val.startswith('license=')` in the token loop of `get_licenses_list`. -/
def licTok (v : String) : Bool := pyStartsWith v "license="

/-- `val.startswith('package=')` in the token loop of `get_licenses_list`. -/
def pkgTok (v : String) : Bool := pyStartsWith v "package="

/-- The token loop of `get_licenses_list`: `lic` is the running value of the
`license` variable (initialised to `""` for each line); every `package=`
token appends one `core,<package>,<license>` row. -/
def entriesFromTokens : List String → String → List String
  | [], _ => []
  | v :: rest, lic =>
    if licTok v then entriesFromTokens rest (pyDrop v 8)
    else if pkgTok v then
      ("core," ++ pyDrop v 8 ++ "," ++ lic) :: entriesFromTokens rest lic
    else entriesFromTokens rest lic

/-- The rows `get_licenses_list` appends for one stderr line: lines without
the marker contribute nothing; on a marker line the text after the marker is
split on single spaces and fed to the token loop. -/
def lineEntries (line : String) : List String :=
  match afterFirst FOUND_MARKER.data line.data with
  | none => []
  | some rest => entriesFromTokens ((pySplitCharAux ' ' rest []).map String.mk) ""

/-- `get_licenses_list(ctx)`, with the discovery tool's captured stderr text
as input: start from the bootstrap row, append the rows of every stderr line
(`if result.stderr:` skips an empty capture), and sort the result.
`licenses.sort()` is modelled as an insertion sort under the code-point
order `strLe`: on a list of strings the ascending sorted permutation is
unique (equal keys are identical strings), so this is exactly the list
Python's `list.sort()` produces. -/
def get_licenses_list (stderr : String) : List String :=
  List.insertionSort (fun a b => strLe a b = true)
    (bootstrapEntry ::
      (if stderr = "" then []
       else (pySplitChar '\n' stderr).flatMap lineEntries))

/-! ## `lint_licenses` (the audit) -/

/-- `removed_licenses = [ele for ele in new_licenses if ele not in licenses]`
(printed with a leading `+`). -/
def removed_licenses (licenses new_licenses : List String) : List String :=
  new_licenses.filter (fun ele => !licenses.contains ele)

/-- `added_licenses = [ele for ele in licenses if ele not in new_licenses]`
(printed with a leading `-`). -/
def added_licenses (licenses new_licenses : List String) : List String :=
  licenses.filter (fun ele => !new_licenses.contains ele)

/-- The process exit code of `lint_licenses` given the recorded rows and the
freshly generated rows: `Exit(code=1)` when either difference list is
nonempty, normal exit (0) otherwise.  This models the non-Windows execution
path; the `sys.platform == 'win32'` carve-out is not taken. -/
def lint_licenses_exit (licenses new_licenses : List String) : Nat :=
  if (removed_licenses licenses new_licenses).length
      + (added_licenses licenses new_licenses).length > 0 then 1 else 0

/-- The manifest read in `lint_licenses`: `next(f)` skips the header line,
and each remaining line is recorded as `line.rstrip()`. -/
def readManifestFile (content : String) : List String :=
  ((pyFileLinesAux content.data []).drop 1).map (fun l => (⟨pyRstripList l⟩ : String))

/-- The whole `lint_licenses` run: read the manifest file, diff it against
the freshly generated rows, and exit. -/
def lint_licenses_run (content : String) (new_licenses : List String) : Nat :=
  lint_licenses_exit (readManifestFile content) new_licenses

/-! ## `generate_licenses` (manifest regeneration) -/

/-- One file-system effect of `generate_licenses` on the manifest file. -/
inductive FileOp where
  | truncate : FileOp
  | write : String → FileOp
  deriving DecidableEq

/-- Apply one file operation to the file's current contents. -/
def applyOp : String → FileOp → String
  | _, FileOp.truncate => ""
  | c, FileOp.write s => c ++ s

/-- The sequence of file operations `generate_licenses` performs:
`open(filename, 'w')` truncates, the header is written, and only then is
`get_licenses_list(ctx)` evaluated — so when the discovery invocation raises
(`discovery = none`) no further write happens, while on success every
generated row is written with a trailing newline. -/
def generate_licenses_ops (discovery : Option String) : List FileOp :=
  FileOp.truncate :: FileOp.write "Component,Origin,License\n" ::
    (match discovery with
     | none => []
     | some out => (get_licenses_list out).map (fun l => FileOp.write (l ++ "\n")))

/-- The manifest file's contents after running `generate_licenses`, given
its previous contents and the outcome of the discovery invocation
(`none` = the external tool failed, `some out` = it produced stderr `out`). -/
def generate_licenses_run (prev : String) (discovery : Option String) : String :=
  (generate_licenses_ops discovery).foldl applyOp prev

/-- The text written for an entry list: one row per line, each with a
trailing newline (the body of the `for` loop in `generate_licenses`). -/
def writeEntries : List String → String
  | [] => ""
  | e :: rest => e ++ "\n" ++ writeEntries rest

/-- The full manifest text `generate_licenses` writes for an entry list:
header row, then the entries. -/
def writeManifest (entries : List String) : String :=
  "Component,Origin,License\n" ++ writeEntries entries

/-! ## `lint_licenses_old` (the legacy audit) -/

/-- One row of `LICENSE-3rdparty.csv` as produced by `csv.DictReader`
(header `Component,Origin,License`). -/
structure CsvRow where
  component : String
  origin : String
  license : String
  deriving DecidableEq

/-- Outcome of `lint_licenses_old`: `malformedEntry o` is the
`Exit(code=1)` raised for a row of origin `o` with an empty license field,
`outdated missing extra` the `Exit(code=1)` for a manifest out of sync with
`go.sum`, and `ok` a normal exit. -/
inductive OldAuditResult where
  | malformedEntry : String → OldAuditResult
  | outdated : List String → List String → OldAuditResult
  | ok : OldAuditResult
  deriving DecidableEq

/-- Non-go dependencies expected in the license file but not in `go.sum`. -/
def NON_GO_DEPS : List String :=
  ["github.com/codemirror/CodeMirror", "github.com/FortAwesome/Font-Awesome",
   "github.com/jquery/jquery"]

/-- `'/'.join(entry['Origin'].split("/")[0:3])`. -/
def originKey (origin : String) : String :=
  String.intercalate "/" ((pySplitChar '/' origin).take 3)

/-- The row loop of `lint_licenses_old`: the first row with an empty license
field raises (error carries its origin); otherwise every row contributes its
origin key. -/
def collectLicenseDeps : List CsvRow → Except String (List String)
  | [] => Except.ok []
  | r :: rest =>
    if r.license = "" then Except.error r.origin
    else (collectLicenseDeps rest).map (fun ds => originKey r.origin :: ds)

/-- The dependency names read from `go.sum`: lines splitting into exactly
three space-separated tokens contribute their first token. -/
def goSumDeps (content : String) : List String :=
  (pyFileLines content).filterMap (fun line =>
    match pySplitChar ' ' line with
    | [a, _, _] => some a
    | _ => none)

/-- Equality of the sets represented by two lists (Python `set` equality). -/
def listSetEq (a b : List String) : Bool :=
  a.all (fun x => b.contains x) && b.all (fun x => a.contains x)

/-- `lint_licenses_old`, from the text of `go.sum` and the parsed CSV rows:
validate every row's license field, then compare the dependency sets. -/
def lint_licenses_old (goSum : String) (rows : List CsvRow) : OldAuditResult :=
  match collectLicenseDeps rows with
  | Except.error o => OldAuditResult.malformedEntry o
  | Except.ok license_deps =>
    let deps := goSumDeps goSum ++ NON_GO_DEPS
    if listSetEq deps license_deps then OldAuditResult.ok
    else OldAuditResult.outdated
      (deps.filter (fun d => !license_deps.contains d))
      (license_deps.filter (fun d => !deps.contains d))

/-! ## Specification-side definitions

These two definitions follow the specification's words (for the refinement
claim about token pairing) and are compared with the source-derived parser
above. -/

/-- The running `license` value after a token list, starting from `lic`:
mirrors the state of the `license` variable in the token loop. -/
def lastLicense : List String → String → String
  | [], lic => lic
  | v :: rest, lic =>
    lastLicense rest (if licTok v then pyDrop v 8 else lic)

/-- Specification reading: the value of the most recent `license=` token of
a token list (empty when there is none). -/
def mostRecentLicense (ts : List String) : String :=
  match ts.reverse.find? licTok with
  | some v => pyDrop v 8
  | none => ""

/-! ## Helper lemmas -/

theorem mem_removed_licenses (L N : List String) (x : String) :
    x ∈ removed_licenses L N ↔ x ∈ N ∧ x ∉ L := by
  simp [removed_licenses, List.mem_filter]

theorem mem_added_licenses (L N : List String) (x : String) :
    x ∈ added_licenses L N ↔ x ∈ L ∧ x ∉ N := by
  simp [added_licenses, List.mem_filter]

theorem isPrefixOf_append_self (p l : List Char) : p.isPrefixOf (p ++ l) = true := by
  induction p with
  | nil => simp [List.isPrefixOf]
  | cons c cs ih => simp [List.isPrefixOf, ih]

theorem licTok_append (L : String) : licTok ("license=" ++ L) = true := by
  unfold licTok pyStartsWith
  rw [String.data_append]
  exact isPrefixOf_append_self _ _

theorem pkgTok_append (P : String) : pkgTok ("package=" ++ P) = true := by
  unfold pkgTok pyStartsWith
  rw [String.data_append]
  exact isPrefixOf_append_self _ _

theorem licTok_not_pkgTok (v : String) (h : licTok v = true) : pkgTok v = false := by
  unfold licTok pyStartsWith at h
  unfold pkgTok pyStartsWith
  rw [show ("license=" : String).data = ['l', 'i', 'c', 'e', 'n', 's', 'e', '='] from rfl] at h
  rw [show ("package=" : String).data = ['p', 'a', 'c', 'k', 'a', 'g', 'e', '='] from rfl]
  cases hv : v.data with
  | nil =>
    rw [hv] at h
    exact absurd h (by decide)
  | cons c cs =>
    rw [hv] at h
    rw [show (['l', 'i', 'c', 'e', 'n', 's', 'e', '='].isPrefixOf (c :: cs))
          = (('l' == c) && ['i', 'c', 'e', 'n', 's', 'e', '='].isPrefixOf cs) from rfl] at h
    rw [show (['p', 'a', 'c', 'k', 'a', 'g', 'e', '='].isPrefixOf (c :: cs))
          = (('p' == c) && ['a', 'c', 'k', 'a', 'g', 'e', '='].isPrefixOf cs) from rfl]
    have hc : c = 'l' := by
      rw [Bool.and_eq_true] at h
      exact (beq_iff_eq.mp h.1).symm
    subst hc
    rfl

theorem pkgTok_not_licTok (v : String) (h : pkgTok v = true) : licTok v = false := by
  unfold pkgTok pyStartsWith at h
  unfold licTok pyStartsWith
  rw [show ("package=" : String).data = ['p', 'a', 'c', 'k', 'a', 'g', 'e', '='] from rfl] at h
  rw [show ("license=" : String).data = ['l', 'i', 'c', 'e', 'n', 's', 'e', '='] from rfl]
  cases hv : v.data with
  | nil =>
    rw [hv] at h
    exact absurd h (by decide)
  | cons c cs =>
    rw [hv] at h
    rw [show (['p', 'a', 'c', 'k', 'a', 'g', 'e', '='].isPrefixOf (c :: cs))
          = (('p' == c) && ['a', 'c', 'k', 'a', 'g', 'e', '='].isPrefixOf cs) from rfl] at h
    rw [show (['l', 'i', 'c', 'e', 'n', 's', 'e', '='].isPrefixOf (c :: cs))
          = (('l' == c) && ['i', 'c', 'e', 'n', 's', 'e', '='].isPrefixOf cs) from rfl]
    have hc : c = 'p' := by
      rw [Bool.and_eq_true] at h
      exact (beq_iff_eq.mp h.1).symm
    subst hc
    rfl

theorem pyDrop_append (pre s : String) : pyDrop (pre ++ s) pre.data.length = s := by
  unfold pyDrop
  rw [String.data_append, List.drop_left]

theorem pyDrop_license (L : String) : pyDrop ("license=" ++ L) 8 = L :=
  pyDrop_append "license=" L

theorem pyDrop_package (P : String) : pyDrop ("package=" ++ P) 8 = P :=
  pyDrop_append "package=" P

theorem entriesFromTokens_append (ts₁ ts₂ : List String) (lic : String) :
    entriesFromTokens (ts₁ ++ ts₂) lic
      = entriesFromTokens ts₁ lic ++ entriesFromTokens ts₂ (lastLicense ts₁ lic) := by
  induction ts₁ generalizing lic with
  | nil => simp [entriesFromTokens, lastLicense]
  | cons v rest ih =>
    cases h1 : licTok v with
    | true => simp [entriesFromTokens, lastLicense, h1, ih]
    | false =>
      cases h2 : pkgTok v with
      | true => simp [entriesFromTokens, lastLicense, h1, h2, ih]
      | false => simp [entriesFromTokens, lastLicense, h1, h2, ih]

theorem length_entriesFromTokens (ts : List String) (lic : String) :
    (entriesFromTokens ts lic).length = ts.countP pkgTok := by
  induction ts generalizing lic with
  | nil => simp [entriesFromTokens]
  | cons v rest ih =>
    cases h1 : licTok v with
    | true =>
      simp [entriesFromTokens, h1, ih, List.countP_cons, licTok_not_pkgTok v h1]
    | false =>
      cases h2 : pkgTok v with
      | true => simp [entriesFromTokens, h1, h2, ih, List.countP_cons]
      | false => simp [entriesFromTokens, h1, h2, ih, List.countP_cons]

theorem lastLicense_append (ts : List String) (v : String) (lic : String) :
    lastLicense (ts ++ [v]) lic
      = if licTok v then pyDrop v 8 else lastLicense ts lic := by
  induction ts generalizing lic with
  | nil => simp [lastLicense]
  | cons u rest ih => simp [lastLicense, ih]

theorem lastLicense_eq_mostRecent (ts : List String) :
    lastLicense ts "" = mostRecentLicense ts := by
  induction ts using List.reverseRecOn with
  | nil => rfl
  | append_singleton ts v ih =>
    rw [lastLicense_append]
    unfold mostRecentLicense
    rw [List.reverse_append]
    cases hv : licTok v with
    | true => simp [List.find?_cons, hv]
    | false =>
      simp only [List.reverse_cons, List.reverse_nil, List.nil_append,
        List.cons_append, List.find?_cons, hv]
      rw [ih]
      rfl

theorem strLeList_total (a b : List Char) : (strLeList a b || strLeList b a) = true := by
  induction a generalizing b with
  | nil => simp [strLeList]
  | cons x xs ih =>
    cases b with
    | nil => simp [strLeList]
    | cons y ys =>
      by_cases h1 : x < y
      · simp [strLeList, h1]
      · by_cases h2 : y < x
        · simp [strLeList, h1, h2]
        · simp [strLeList, h1, h2, ih ys]

theorem strLeList_trans :
    ∀ a b c : List Char, strLeList a b = true → strLeList b c = true →
      strLeList a c = true := by
  intro a
  induction a with
  | nil =>
    intro b c _ _
    simp [strLeList]
  | cons x xs ih =>
    intro b c h1 h2
    cases b with
    | nil => simp [strLeList] at h1
    | cons y ys =>
      cases c with
      | nil => simp [strLeList] at h2
      | cons z zs =>
        simp only [strLeList] at h1 h2 ⊢
        by_cases hxy : x < y
        · by_cases hyz : y < z
          · rw [if_pos (lt_trans hxy hyz)]
          · by_cases hzy : z < y
            · rw [if_neg hyz, if_pos hzy] at h2
              exact absurd h2 (by simp)
            · have hy : y = z := by
                rcases lt_trichotomy y z with h | h | h
                · exact absurd h hyz
                · exact h
                · exact absurd h hzy
              subst hy
              rw [if_pos hxy]
        · by_cases hyx : y < x
          · rw [if_neg hxy, if_pos hyx] at h1
            exact absurd h1 (by simp)
          · have hxy' : x = y := by
              rcases lt_trichotomy x y with h | h | h
              · exact absurd h hxy
              · exact h
              · exact absurd h hyx
            subst hxy'
            rw [if_neg hxy, if_neg hyx] at h1
            by_cases hxz : x < z
            · rw [if_pos hxz]
            · by_cases hzx : z < x
              · rw [if_neg hxz, if_pos hzx] at h2
                exact absurd h2 (by simp)
              · have hz : x = z := by
                  rcases lt_trichotomy x z with h | h | h
                  · exact absurd h hxz
                  · exact h
                  · exact absurd h hzx
                subst hz
                rw [if_neg hxz, if_neg hzx] at h2
                rw [if_neg hxz, if_neg hzx]
                exact ih ys zs h1 h2

theorem strLe_trans (a b c : String) :
    strLe a b = true → strLe b c = true → strLe a c = true :=
  strLeList_trans a.data b.data c.data

theorem strLe_total (a b : String) : (strLe a b || strLe b a) = true :=
  strLeList_total a.data b.data

/-! ## Claims about `get_licenses_list` -/

/-- C2 counterexample: on the line
`msg="Found License" package=github.com/foo license=MIT` (package token
preceding the license token) the parser emits `core,github.com/foo,` — the
license field is empty, because the `license` variable is still `""` when
the `package=` token is handled — and the entry `core,github.com/foo,MIT`
the claim promises appears nowhere in the generated list. -/
theorem C2_counterexample_package_before_license :
    lineEntries "msg=\"Found License\" package=github.com/foo license=MIT"
      = ["core,github.com/foo,"] ∧
    ("core,github.com/foo,MIT" : String)
      ∉ get_licenses_list "msg=\"Found License\" package=github.com/foo license=MIT" := by
  constructor
  · decide
  · decide

/-- C2 amended: an entry `core,<package>,<license>` is emitted when the
`license=` token precedes the `package=` token; for any values without
further tokens, `license=L` followed by `package=P` parses to
`core,P,L`, and the line `msg="Found License" license=MIT
package=github.com/foo` yields the generated list
`[bootstrap, core,github.com/foo,MIT]`. -/
theorem C2_amended_license_before_package (L P : String) :
    entriesFromTokens ["license=" ++ L, "package=" ++ P] ""
      = ["core," ++ P ++ "," ++ L] ∧
    get_licenses_list "msg=\"Found License\" license=MIT package=github.com/foo"
      = [bootstrapEntry, "core,github.com/foo,MIT"] := by
  constructor
  · have h1 : licTok ("license=" ++ L) = true := licTok_append L
    have h3 : pkgTok ("package=" ++ P) = true := pkgTok_append P
    have h2 : licTok ("package=" ++ P) = false := pkgTok_not_licTok _ h3
    simp [entriesFromTokens, h1, h2, h3, pyDrop_license, pyDrop_package]
  · decide

/-- C5: the generated list is always sorted (lexicographically by code
point, the order Python's `list.sort` uses on strings) and always contains
the hardcoded bootstrap row; when no stderr line contains the
`msg="Found License"` marker, the generated list is exactly the bootstrap
row. -/
theorem C5_generated_sorted_and_bootstrap (stderr : String) :
    (get_licenses_list stderr).Sorted (fun a b => strLe a b = true) ∧
    bootstrapEntry ∈ get_licenses_list stderr ∧
    ((∀ line ∈ pySplitChar '\n' stderr,
        afterFirst FOUND_MARKER.data line.data = none) →
      get_licenses_list stderr = [bootstrapEntry]) := by
  haveI htot : IsTotal String (fun a b => strLe a b = true) :=
    ⟨fun a b => by
      have h := strLe_total a b
      rw [Bool.or_eq_true] at h
      exact h⟩
  haveI htr : IsTrans String (fun a b => strLe a b = true) :=
    ⟨fun a b c => strLe_trans a b c⟩
  refine ⟨?_, ?_, ?_⟩
  · exact List.sorted_insertionSort _ _
  · exact (List.perm_insertionSort _ _).mem_iff.mpr (List.mem_cons_self _ _)
  · intro hno
    unfold get_licenses_list
    by_cases hs : stderr = ""
    · rw [if_pos hs]
      rfl
    · rw [if_neg hs]
      have hflat : (pySplitChar '\n' stderr).flatMap lineEntries = [] := by
        rw [List.flatMap_eq_nil_iff]
        intro line hline
        simp [lineEntries, hno line hline]
      rw [hflat]
      rfl

/-- C5 witness: a discovery output with no marker line generates exactly the
bootstrap row. -/
theorem C5_witness :
    get_licenses_list "time=x level=debug msg=\"Adding,  run callees\""
      = [bootstrapEntry] :=
  (C5_generated_sorted_and_bootstrap
    "time=x level=debug msg=\"Adding,  run callees\"").2.2 (by decide)

/-- C10: on a marker line the token loop emits exactly one entry per
`package=` token (so a `license=` token with no following `package=` token
produces no entry), and the entry for a `package=` token carries the value
of the most recent `license=` token occurring earlier in the token list —
the empty string when there is none; lines without the marker contribute
nothing. -/
theorem C10_entry_per_package_token (ts pre post : List String) (v line : String) :
    (entriesFromTokens ts "").length = ts.countP pkgTok ∧
    (pkgTok v = true →
      (entriesFromTokens (pre ++ v :: post) "")[pre.countP pkgTok]?
        = some ("core," ++ pyDrop v 8 ++ "," ++ mostRecentLicense pre)) ∧
    (afterFirst FOUND_MARKER.data line.data = none → lineEntries line = []) := by
  refine ⟨length_entriesFromTokens ts "", fun hv => ?_, fun hm => ?_⟩
  · rw [entriesFromTokens_append]
    rw [List.getElem?_append_right (le_of_eq (length_entriesFromTokens pre ""))]
    rw [length_entriesFromTokens, Nat.sub_self]
    have hl : licTok v = false := pkgTok_not_licTok v hv
    rw [lastLicense_eq_mostRecent]
    simp [entriesFromTokens, hl, hv]
  · simp [lineEntries, hm]

/-- C10 witness: in the token list `license=MIT package=github.com/foo
license=Apache` the `package=` token pairs with the preceding `MIT`, not
with the later `Apache`. -/
theorem C10_witness :
    (entriesFromTokens (["license=MIT"] ++ "package=github.com/foo" :: ["license=Apache"]) "")[
        (["license=MIT"] : List String).countP pkgTok]?
      = some ("core," ++ pyDrop "package=github.com/foo" 8 ++ ","
          ++ mostRecentLicense ["license=MIT"]) :=
  (C10_entry_per_package_token [] ["license=MIT"] ["license=Apache"]
    "package=github.com/foo" "").2.1 (by decide)

/-! ## Claims about the reconciliation step -/

/-- C1: for every pair of entry lists, the reconciler computes `missing`
(the rows printed with `+`, `removed_licenses` in the source) as exactly the
rows of `new_licenses` that are not members of `licenses`, and `extra` (the
rows printed with `-`, `added_licenses` in the source) as exactly the rows
of `licenses` that are not members of `new_licenses`, by exact string
equality. -/
theorem C1_diff_membership (licenses new_licenses : List String) (x : String) :
    (x ∈ removed_licenses licenses new_licenses ↔
      x ∈ new_licenses ∧ x ∉ licenses) ∧
    (x ∈ added_licenses licenses new_licenses ↔
      x ∈ licenses ∧ x ∉ new_licenses) :=
  ⟨mem_removed_licenses licenses new_licenses x,
   mem_added_licenses licenses new_licenses x⟩

/-- C4: the audit exits with code 1 exactly when one of the two difference
lists is nonempty, and with code 0 exactly when both are empty; on the old
manifest `{A, B}` against the new manifest `{B, C}` it computes
`missing = [C]`, `extra = [A]` and exits 1. -/
theorem C4_exit_iff_diff_nonempty :
    (∀ L N : List String,
      (lint_licenses_exit L N = 1 ↔
        (removed_licenses L N ≠ [] ∨ added_licenses L N ≠ [])) ∧
      (lint_licenses_exit L N = 0 ↔
        (removed_licenses L N = [] ∧ added_licenses L N = []))) ∧
    removed_licenses ["A", "B"] ["B", "C"] = ["C"] ∧
    added_licenses ["A", "B"] ["B", "C"] = ["A"] ∧
    lint_licenses_exit ["A", "B"] ["B", "C"] = 1 := by
  refine ⟨fun L N => ?_, by decide, by decide, by decide⟩
  have key : (removed_licenses L N).length + (added_licenses L N).length > 0 ↔
      (removed_licenses L N ≠ [] ∨ added_licenses L N ≠ []) := by
    constructor
    · intro h
      by_contra hc
      push_neg at hc
      rw [hc.1, hc.2] at h
      simp at h
    · intro h
      rcases h with h | h
      · have := List.length_pos.mpr h
        omega
      · have := List.length_pos.mpr h
        omega
  unfold lint_licenses_exit
  by_cases h : (removed_licenses L N).length + (added_licenses L N).length > 0
  · rw [if_pos h]
    exact ⟨⟨fun _ => key.mp h, fun _ => rfl⟩,
      ⟨fun h10 => absurd h10 one_ne_zero,
       fun hc => absurd h (by rw [hc.1, hc.2]; simp)⟩⟩
  · rw [if_neg h]
    have hboth : removed_licenses L N = [] ∧ added_licenses L N = [] := by
      constructor
      · by_contra hc
        exact h (key.mpr (Or.inl hc))
      · by_contra hc
        exact h (key.mpr (Or.inr hc))
    exact ⟨⟨fun h01 => absurd h01 zero_ne_one, fun hd => absurd (key.mpr hd) h⟩,
      ⟨fun _ => hboth, fun _ => rfl⟩⟩

/-- C8: diffing a manifest against itself yields two empty lists, and for
all entry lists the two difference lists are disjoint (their intersection
is empty). -/
theorem C8_diff_self_empty_and_disjoint (M A B : List String) :
    (removed_licenses M M = [] ∧ added_licenses M M = []) ∧
    removed_licenses A B ∩ added_licenses A B = [] := by
  refine ⟨⟨?_, ?_⟩, ?_⟩
  · rw [List.eq_nil_iff_forall_not_mem]
    intro x hx
    rw [mem_removed_licenses] at hx
    exact hx.2 hx.1
  · rw [List.eq_nil_iff_forall_not_mem]
    intro x hx
    rw [mem_added_licenses] at hx
    exact hx.2 hx.1
  · rw [List.eq_nil_iff_forall_not_mem]
    intro x hx
    rw [List.mem_inter_iff] at hx
    rcases hx with ⟨h1, h2⟩
    rw [mem_removed_licenses] at h1
    rw [mem_added_licenses] at h2
    exact h1.2 h2.1

/-! ## Claims about `generate_licenses` -/

theorem foldl_applyOp_writes (ls : List String) (c : String) :
    List.foldl applyOp c (ls.map (fun l => FileOp.write (l ++ "\n")))
      = c ++ writeEntries ls := by
  induction ls generalizing c with
  | nil =>
    simp only [List.map_nil, List.foldl_nil, writeEntries]
    exact (String.append_empty c).symm
  | cons e es ih =>
    simp only [List.map_cons, List.foldl_cons, applyOp, writeEntries]
    rw [ih]
    rw [String.append_assoc, String.append_assoc]

/-- C3 counterexample: when the discovery invocation fails, the previously
recorded manifest file is not left untouched — `open(filename, 'w')` has
already truncated it and the header has been written before
`get_licenses_list` runs. -/
theorem C3_counterexample_not_atomic :
    generate_licenses_run "Component,Origin,License\ncore,github.com/x,MIT\n" none
      ≠ "Component,Origin,License\ncore,github.com/x,MIT\n" := by
  decide

/-- C3 amended: the file is truncated and the header written before the
discovery tool is invoked, so on discovery failure the manifest is replaced
by a header-only file regardless of its previous contents; entry rows are
written only after the full discovery list has been computed, so on success
the file holds exactly the header followed by the generated rows. -/
theorem C3_amended_header_before_discovery (prev out : String) :
    generate_licenses_run prev none = "Component,Origin,License\n" ∧
    generate_licenses_run prev (some out)
      = writeManifest (get_licenses_list out) := by
  constructor
  · rfl
  · unfold generate_licenses_run generate_licenses_ops
    rw [List.foldl_cons, List.foldl_cons]
    rw [show applyOp (applyOp prev FileOp.truncate)
          (FileOp.write "Component,Origin,License\n")
        = "Component,Origin,License\n" from rfl]
    rw [foldl_applyOp_writes]
    rfl

/-! ## Claims about read-time normalization and the round trip -/

theorem head?_dropWhile_not (p : Char → Bool) (l : List Char) :
    ∀ c, ((l.dropWhile p).head? = some c) → p c = false := by
  induction l with
  | nil =>
    intro c h
    simp [List.dropWhile] at h
  | cons a as ih =>
    intro c h
    by_cases ha : p a = true
    · rw [List.dropWhile_cons, if_pos ha] at h
      exact ih c h
    · rw [List.dropWhile_cons, if_neg ha] at h
      have hac : a = c := by simpa using h
      subst hac
      cases hpa : p a with
      | true => exact absurd hpa ha
      | false => rfl

/-- C6 counterexample: a recorded row differing from a generated row only in
a trailing space (whitespace other than the newline) is not distinct after
read time — `line.rstrip()` removes every trailing whitespace character, so
the two compare as equal and the audit exits 0. -/
theorem C6_counterexample_trailing_space :
    readManifestFile "Component,Origin,License\ncore,github.com/x,MIT \n"
      = ["core,github.com/x,MIT"] ∧
    lint_licenses_run "Component,Origin,License\ncore,github.com/x,MIT \n"
      ["core,github.com/x,MIT"] = 0 := by
  constructor
  · decide
  · decide

/-- C6 amended: membership during reconciliation is exact string equality
with no normalization, and the read-time processing strips exactly the
maximal run of trailing whitespace of each recorded row (`rstrip`, not just
the trailing newline): every row splits as its stripped value followed by
whitespace only, and the stripped value never ends in whitespace — internal
and leading whitespace are preserved, so rows differing there stay
distinct. -/
theorem C6_amended_exact_match_rstrip (L N : List String) (x : String) (l : List Char) :
    (x ∈ removed_licenses L N ↔ x ∈ N ∧ x ∉ L) ∧
    (x ∈ added_licenses L N ↔ x ∈ L ∧ x ∉ N) ∧
    (∃ ws : List Char, l = pyRstripList l ++ ws ∧ ∀ c ∈ ws, isPySpace c = true) ∧
    (∀ c : Char, (pyRstripList l).getLast? = some c → isPySpace c = false) := by
  refine ⟨mem_removed_licenses L N x, mem_added_licenses L N x, ?_, ?_⟩
  · refine ⟨(l.reverse.takeWhile isPySpace).reverse, ?_, ?_⟩
    · unfold pyRstripList
      rw [← List.reverse_append, List.takeWhile_append_dropWhile, List.reverse_reverse]
    · intro c hc
      rw [List.mem_reverse] at hc
      exact List.mem_takeWhile_imp hc
  · intro c hc
    unfold pyRstripList at hc
    rw [List.getLast?_reverse] at hc
    exact head?_dropWhile_not isPySpace l.reverse c hc

/-- C6 witness: the row `core,a,MIT ` decomposes into its stripped value and
a whitespace tail. -/
theorem C6_amended_witness :
    ∃ ws : List Char, "core,a,MIT ".data = pyRstripList "core,a,MIT ".data ++ ws ∧
      ∀ c ∈ ws, isPySpace c = true :=
  (C6_amended_exact_match_rstrip [] [] "" "core,a,MIT ".data).2.2.1

/-- Splitting one newline-terminated line off the front of a file text. -/
theorem pyFileLinesAux_line (l : List Char) (rest : List Char) (acc : List Char)
    (h : '\n' ∉ l) :
    pyFileLinesAux (l ++ '\n' :: rest) acc
      = (acc.reverse ++ l ++ ['\n']) :: pyFileLinesAux rest [] := by
  induction l generalizing acc with
  | nil => simp [pyFileLinesAux]
  | cons c cs ih =>
    have hc : ¬ c = '\n' := by
      intro e
      subst e
      exact h (List.mem_cons_self _ _)
    simp only [List.cons_append, pyFileLinesAux, if_neg hc, List.append_eq]
    rw [ih (c :: acc) (fun hm => h (List.mem_cons_of_mem c hm))]
    simp [List.append_assoc]

theorem pyRstripList_append_newline (l : List Char) :
    pyRstripList (l ++ ['\n']) = pyRstripList l := by
  unfold pyRstripList
  rw [List.reverse_append]
  change (List.dropWhile isPySpace ('\n' :: l.reverse)).reverse = _
  rw [List.dropWhile_cons, if_pos (by decide)]

theorem readManifestBody (entries : List String)
    (h : ∀ e ∈ entries, pyRstrip e = e ∧ '\n' ∉ e.data) :
    (pyFileLinesAux (writeEntries entries).data []).map
        (fun l => (⟨pyRstripList l⟩ : String)) = entries := by
  induction entries with
  | nil => rfl
  | cons e es ih =>
    have hdata : (writeEntries (e :: es)).data
        = e.data ++ '\n' :: (writeEntries es).data := by
      show (e ++ "\n" ++ writeEntries es).data = _
      rw [String.data_append, String.data_append]
      rw [show ("\n" : String).data = ['\n'] from rfl]
      simp [List.append_assoc]
    rw [show writeEntries (e :: es) = e ++ "\n" ++ writeEntries es from rfl] at hdata ⊢
    rw [hdata]
    rw [pyFileLinesAux_line _ _ _ (h e (List.mem_cons_self e es)).2]
    rw [List.map_cons]
    simp only [List.reverse_nil, List.nil_append]
    rw [pyRstripList_append_newline]
    rw [show (⟨pyRstripList e.data⟩ : String) = pyRstrip e from rfl]
    rw [(h e (List.mem_cons_self e es)).1]
    rw [ih (fun x hx => h x (List.mem_cons_of_mem e hx))]

/-- C9 counterexample: the entry list `[ab ]` contains no comma, yet writing
it and reading it back yields `[ab]` — `line.rstrip()` at read time removes
the trailing space, so the round trip is not the identity. -/
theorem C9_counterexample_trailing_space_entry :
    readManifestFile (writeManifest ["ab "]) = ["ab"] ∧
    readManifestFile (writeManifest ["ab "]) ≠ ["ab "] := by
  constructor
  · decide
  · decide

/-- C9 amended: the write/read round trip is the identity for entry lists
whose rows contain no newline or carriage return and carry no trailing
whitespace (rows `rstrip` leaves unchanged); embedded commas are harmless
since the writer emits raw rows. -/
theorem C9_amended_roundtrip (entries : List String)
    (h : ∀ e ∈ entries, pyRstrip e = e ∧ '\n' ∉ e.data ∧ '\r' ∉ e.data) :
    readManifestFile (writeManifest entries) = entries := by
  unfold readManifestFile writeManifest
  have hdata : ("Component,Origin,License\n" ++ writeEntries entries).data
      = "Component,Origin,License".data ++ '\n' :: (writeEntries entries).data := by
    rw [String.data_append]
    rw [show ("Component,Origin,License\n" : String).data
          = "Component,Origin,License".data ++ ['\n'] from by decide]
    simp [List.append_assoc]
  rw [hdata]
  rw [pyFileLinesAux_line _ _ _ (by decide)]
  simp only [List.drop_succ_cons, List.drop_zero]
  exact readManifestBody entries (fun e he => ⟨(h e he).1, (h e he).2.1⟩)

/-- C9 witness: a two-row manifest of clean rows round-trips unchanged. -/
theorem C9_amended_witness :
    readManifestFile (writeManifest ["core,github.com/foo,MIT", "core,x,BSD"])
      = ["core,github.com/foo,MIT", "core,x,BSD"] :=
  C9_amended_roundtrip ["core,github.com/foo,MIT", "core,x,BSD"] (by decide)

/-! ## Claims about the malformed-entry check -/

/-- C7 counterexample: the current audit (`lint_licenses`) performs no
empty-license validation at all — on a recorded manifest whose last row has
an empty license field it does not halt with a fatal error but runs the
reconciliation and even exits 0 when the generated list matches. -/
theorem C7_counterexample_empty_license_accepted :
    lint_licenses_run
      "Component,Origin,License\ncore,\"github.com/frapposelli/wwhrd\",MIT\ncore,github.com/foo,\n"
      (get_licenses_list "msg=\"Found License\" package=github.com/foo") = 0 := by
  decide

/-- C7 amended: only the legacy audit (`lint_licenses_old`) validates the
license field: if any recorded row has an empty license field it halts with
the fatal `MalformedManifestEntry` exit before any set comparison — the
result is `malformedEntry` whatever `go.sum` contains; the current
`lint_licenses` has no such check. -/
theorem C7_amended_legacy_audit_halts (goSum : String) (rows : List CsvRow)
    (h : ∃ r ∈ rows, r.license = "") :
    ∃ o, lint_licenses_old goSum rows = OldAuditResult.malformedEntry o := by
  have key : ∀ rs : List CsvRow, (∃ r ∈ rs, r.license = "") →
      ∃ o, collectLicenseDeps rs = Except.error o := by
    intro rs
    induction rs with
    | nil =>
      intro h'
      simp at h'
    | cons r rest ih =>
      intro h'
      by_cases hl : r.license = ""
      · exact ⟨r.origin, by simp [collectLicenseDeps, hl]⟩
      · have h'' : ∃ r' ∈ rest, r'.license = "" := by
          rcases h' with ⟨r', hr', he⟩
          rcases List.mem_cons.mp hr' with heq | hmem
          · exact absurd (heq ▸ he) hl
          · exact ⟨r', hmem, he⟩
        rcases ih h'' with ⟨o, ho⟩
        refine ⟨o, ?_⟩
        simp [collectLicenseDeps, hl, ho, Except.map]
  rcases key rows h with ⟨o, ho⟩
  refine ⟨o, ?_⟩
  simp [lint_licenses_old, ho]

/-- C7 witness: a one-row manifest with an empty license field makes the
legacy audit halt with the malformed-entry error. -/
theorem C7_amended_witness :
    ∃ o, lint_licenses_old "" [⟨"core", "github.com/foo", ""⟩]
      = OldAuditResult.malformedEntry o :=
  C7_amended_legacy_audit_halts "" [⟨"core", "github.com/foo", ""⟩]
    ⟨⟨"core", "github.com/foo", ""⟩, List.mem_singleton.mpr rfl, rfl⟩

end TasksGo
